import Mathlib

/-!
Verification of the WatchCow container-lifecycle daemon.

This file gives a shallow embedding, in Lean 4, of the parts of the WatchCow
source that its specification talks about, and proves (or refutes) the
specified properties against that embedding.

Modelling conventions:
* A Go `map[string]string` is embedded as an association list
  `Labels := List (String × String)`; iteration order of a map is modelled by
  the order of the list, and properties claimed to be independent of map
  iteration order are proved invariant under permutation of the list.
* Go's indexing `m[k]` (which yields the zero value `""` for a missing key)
  is `goMapGet`; the comma-ok form `v, ok := m[k]` is `lookupLabel`
  returning an `Option`.
* Effectful code (registry updates, the operation queue, the configuration
  store file) is embedded as explicit state passing over plain data.
-/

/-- A Go `map[string]string` as an association list (keys unique in a real
map; the list order stands for map iteration order). -/
abbrev Labels : Type := List (String × String)

/-- `v, ok := labels[k]`: first binding of key `k`, if any. -/
def lookupLabel (labels : Labels) (k : String) : Option String :=
  (List.find? (fun kv => kv.1 == k) labels).map (fun kv => kv.2)

/-- Go map indexing `labels[k]`: the bound value, or the zero value `""`. -/
def goMapGet (labels : Labels) (k : String) : String :=
  (lookupLabel labels k).getD ""

/-- `getLabel` from `internal/fpkgen/generator.go`: the label's value when the
key is present with a non-empty value, the fallback otherwise. -/
def goGetLabel (labels : Labels) (key fallback : String) : String :=
  match lookupLabel labels key with
  | some v => if v == "" then fallback else v
  | none => fallback

/-- `shouldInstall` from `internal/docker/monitor.go`: a container is adopted
via labels iff `watchcow.enable` is `"true"` and `watchcow.install` is
`"fnos"`, `"true"` or empty/absent. -/
def shouldInstall (labels : Labels) : Bool :=
  if goMapGet labels "watchcow.enable" != "true" then false
  else
    let installMode := goMapGet labels "watchcow.install"
    installMode == "fnos" || installMode == "true" || installMode == ""

/-- Character set accepted by `sanitizeAppName`: `[a-z0-9-]`. -/
def isAppNameChar (c : Char) : Bool :=
  ('a' ≤ c && c ≤ 'z') || ('0' ≤ c && c ≤ '9') || c == '-'

/-- `sanitizeAppName` from `internal/fpkgen/generator.go`, at character level:
`strings.ToLower`, then `strings.ReplaceAll(name, "_", "-")` (a single
character substitution), then a builder loop that keeps only characters in
`[a-z0-9-]` and silently drops every other character. The ASCII fragment of
Go's Unicode `ToLower` is modelled. -/
def sanitizeAppName (name : String) : String :=
  String.mk
    (((name.toList.map Char.toLower).map
        (fun c => if c == '_' then '-' else c)).filter isAppNameChar)

/-- The default app name built in `Generator.extractConfig` when the
`watchcow.appname` label is absent: `"watchcow." + sanitizeAppName(name)`. -/
def defaultAppName (name : String) : String :=
  "watchcow." ++ sanitizeAppName name

/-- App-name extraction of `Generator.extractConfig`
(`getLabel(labels, "watchcow.appname", "watchcow." + sanitizedName)`). -/
def extractAppName (labels : Labels) (containerName : String) : String :=
  goGetLabel labels "watchcow.appname" (defaultAppName containerName)

/-- Replace each maximal run of characters outside `[a-z0-9-]` by one `'-'`
(the substitution that the specification's wording describes). The flag
records whether the previous character was part of a disallowed run. -/
def specReplaceRunsAux : Bool → List Char → List Char
  | _, [] => []
  | inRun, c :: cs =>
    if isAppNameChar c then c :: specReplaceRunsAux false cs
    else if inRun then specReplaceRunsAux true cs
    else '-' :: specReplaceRunsAux true cs

/-- Replace each maximal run of disallowed characters by one `'-'`. -/
def specReplaceRuns (l : List Char) : List Char :=
  specReplaceRunsAux false l

/-- The sanitization that the specification describes (for comparison with
the source's `sanitizeAppName`): lowercase, then replace each maximal run of
characters outside `[a-z0-9-]` by a single `"-"`. -/
def specSanitizeRuns (name : String) : String :=
  String.mk (specReplaceRuns (name.toList.map Char.toLower))

example : specSanitizeRuns "a b" = "a-b" := by decide
example : sanitizeAppName "a b" = "ab" := by decide
example : sanitizeAppName "My_App 2" = "my-app2" := by decide

/-- C1: `shouldInstall(labels)` is true iff `watchcow.enable` is `"true"` and
`watchcow.install` is `""` (absent), `"true"`, or `"fnos"`. -/
theorem shouldInstall_iff (labels : Labels) :
    shouldInstall labels = true ↔
      (goMapGet labels "watchcow.enable" = "true" ∧
        (goMapGet labels "watchcow.install" = "" ∨
         goMapGet labels "watchcow.install" = "true" ∨
         goMapGet labels "watchcow.install" = "fnos")) := by
  unfold shouldInstall
  by_cases h : goMapGet labels "watchcow.enable" = "true"
  · simp [h]
    tauto
  · simp [h]

/-- `specReplaceRunsAux` is the identity on lists of allowed characters. -/
theorem specReplaceRunsAux_allowed :
    ∀ l : List Char, (∀ c ∈ l, isAppNameChar c = true) →
      ∀ b, specReplaceRunsAux b l = l := by
  intro l
  induction l with
  | nil => intro _ b; rfl
  | cons c cs ih =>
    intro h b
    have hc : isAppNameChar c = true := h c (List.mem_cons_self c cs)
    simp [specReplaceRunsAux, hc, ih (fun d hd => h d (List.mem_cons_of_mem c hd))]

/-- Mapping underscores to dashes is the identity on allowed characters. -/
theorem map_underscore_id (l : List Char) (h : ∀ c ∈ l, isAppNameChar c = true) :
    l.map (fun c => if c == '_' then '-' else c) = l := by
  induction l with
  | nil => rfl
  | cons c cs ih =>
    have hc := h c (List.mem_cons_self c cs)
    have hne : (c == '_') = false := by
      cases heq : c == '_'
      · rfl
      · rw [eq_of_beq heq] at hc
        exact absurd hc (by decide)
    have hcne : c ≠ '_' := by
      intro hcc
      rw [hcc] at hc
      exact absurd hc (by decide)
    have ih' := ih (fun d hd => h d (List.mem_cons_of_mem c hd))
    simp only [List.map_cons, ih']
    simp [hcne]

/-- C6 (counterexample): on the container name `"a b"` the code deletes the
space, while the claimed sanitization would replace it by `"-"`; the default
app names differ. -/
theorem defaultAppName_space_cex :
    defaultAppName "a b" = "watchcow.ab" ∧
    "watchcow." ++ specSanitizeRuns "a b" = "watchcow.a-b" ∧
    defaultAppName "a b" ≠ "watchcow." ++ specSanitizeRuns "a b" := by
  refine ⟨by decide, by decide, by decide⟩

/-- C6 (amended): the default app name is `"watchcow." + sanitizeAppName name`
where sanitization lowercases, maps each underscore to `"-"`, and deletes all
other characters outside `[a-z0-9-]`; every character of the result lies in
`[a-z0-9-]` (so the name is a token without whitespace), and on names whose
lowercase form is already made of allowed characters the code agrees with the
specification's run-replacing sanitization. -/
theorem defaultAppName_amended (name : String) :
    extractAppName [] name = "watchcow." ++ sanitizeAppName name ∧
    (∀ c ∈ (sanitizeAppName name).toList, isAppNameChar c = true) ∧
    ((∀ c ∈ name.toList.map Char.toLower, isAppNameChar c = true) →
      specSanitizeRuns name = sanitizeAppName name) := by
  refine ⟨rfl, ?_, ?_⟩
  · intro c hc
    have : c ∈ ((name.toList.map Char.toLower).map
        (fun c => if c == '_' then '-' else c)).filter isAppNameChar := hc
    exact (List.mem_filter.mp this).2
  · intro h
    unfold specSanitizeRuns sanitizeAppName specReplaceRuns
    rw [map_underscore_id _ h, List.filter_eq_self.mpr h,
      specReplaceRunsAux_allowed _ h false]

/-- `"{containerPort}:{hostPort}"` pair strings, in map iteration order
(the loop bodies of both key builders). -/
def portPairStrings (ports : Labels) : List String :=
  ports.map (fun kv => kv.1 ++ ":" ++ kv.2)

/-- Go's `<=` on strings at character level: lexicographic comparison
(byte order in Go; codepoint order here — identical on ASCII data such as
port numbers and image references). -/
def charListLe : List Char → List Char → Bool
  | [], _ => true
  | _ :: _, [] => false
  | a :: as, b :: bs =>
    if a.toNat < b.toNat then true
    else if b.toNat < a.toNat then false
    else charListLe as bs

/-- Go string comparison `a <= b`. -/
def goStrLe (a b : String) : Bool :=
  charListLe a.toList b.toList

/-- The ordering used by `sort.Strings`, as a proposition. -/
def StrLe (a b : String) : Prop :=
  goStrLe a b = true

instance : DecidableRel StrLe :=
  fun a b => inferInstanceAs (Decidable (goStrLe a b = true))

/-- Characters are equal when their codepoints are. -/
theorem char_eq_of_toNat_eq {a b : Char} (h : a.toNat = b.toNat) : a = b := by
  apply Char.eq_of_val_eq
  apply UInt32.eq_of_toBitVec_eq
  apply BitVec.eq_of_toNat_eq
  exact h

/-- Head/tail characterization of the lexicographic comparison. -/
theorem charListLe_cons_iff (a b : Char) (as bs : List Char) :
    charListLe (a :: as) (b :: bs) = true ↔
      (a.toNat < b.toNat ∨ (a.toNat = b.toNat ∧ charListLe as bs = true)) := by
  by_cases h1 : a.toNat < b.toNat
  · simp [charListLe, h1]
  · by_cases h2 : b.toNat < a.toNat
    · simp [charListLe, h1, h2]
      omega
    · have heq : a.toNat = b.toNat := by omega
      simp [charListLe, h1, h2, heq]

/-- Totality of the lexicographic comparison. -/
theorem charListLe_total : ∀ as bs : List Char,
    charListLe as bs = true ∨ charListLe bs as = true := by
  intro as
  induction as with
  | nil => intro bs; left; rfl
  | cons a as ih =>
    intro bs
    cases bs with
    | nil => right; rfl
    | cons b bs =>
      rcases Nat.lt_trichotomy a.toNat b.toNat with h | h | h
      · left; exact (charListLe_cons_iff a b as bs).mpr (Or.inl h)
      · rcases ih bs with hh | hh
        · left; exact (charListLe_cons_iff a b as bs).mpr (Or.inr ⟨h, hh⟩)
        · right; exact (charListLe_cons_iff b a bs as).mpr (Or.inr ⟨h.symm, hh⟩)
      · right; exact (charListLe_cons_iff b a bs as).mpr (Or.inl h)

/-- Transitivity of the lexicographic comparison. -/
theorem charListLe_trans : ∀ as bs cs : List Char,
    charListLe as bs = true → charListLe bs cs = true →
    charListLe as cs = true := by
  intro as
  induction as with
  | nil => intro bs cs _ _; rfl
  | cons a as ih =>
    intro bs cs h1 h2
    cases bs with
    | nil => exact absurd h1 (by simp [charListLe])
    | cons b bs =>
      cases cs with
      | nil => exact absurd h2 (by simp [charListLe])
      | cons c cs =>
        rcases (charListLe_cons_iff a b as bs).mp h1 with hab | ⟨hab, htl1⟩ <;>
          rcases (charListLe_cons_iff b c bs cs).mp h2 with hbc | ⟨hbc, htl2⟩
        · exact (charListLe_cons_iff a c as cs).mpr (Or.inl (by omega))
        · exact (charListLe_cons_iff a c as cs).mpr (Or.inl (by omega))
        · exact (charListLe_cons_iff a c as cs).mpr (Or.inl (by omega))
        · exact (charListLe_cons_iff a c as cs).mpr
            (Or.inr ⟨by omega, ih bs cs htl1 htl2⟩)

/-- Antisymmetry of the lexicographic comparison. -/
theorem charListLe_antisymm : ∀ as bs : List Char,
    charListLe as bs = true → charListLe bs as = true → as = bs := by
  intro as
  induction as with
  | nil =>
    intro bs _ h2
    cases bs with
    | nil => rfl
    | cons b bs => exact absurd h2 (by simp [charListLe])
  | cons a as ih =>
    intro bs h1 h2
    cases bs with
    | nil => exact absurd h1 (by simp [charListLe])
    | cons b bs =>
      rcases (charListLe_cons_iff a b as bs).mp h1 with hab | ⟨hab, htl1⟩ <;>
        rcases (charListLe_cons_iff b a bs as).mp h2 with hba | ⟨hba, htl2⟩
      · omega
      · omega
      · omega
      · rw [char_eq_of_toNat_eq hab, ih bs htl1 htl2]

instance : IsTotal String StrLe :=
  ⟨fun a b => charListLe_total a.toList b.toList⟩

instance : IsTrans String StrLe :=
  ⟨fun a b c => charListLe_trans a.toList b.toList c.toList⟩

instance : IsAntisymm String StrLe :=
  ⟨fun _ _ h1 h2 => String.toList_inj.mp (charListLe_antisymm _ _ h1 h2)⟩

/-- `sort.Strings`: sort a list of strings in lexicographic ascending order
(insertion sort has the same graph as Go's sort on strings). -/
def sortStrings (l : List String) : List String :=
  List.insertionSort StrLe l

/-- `makeContainerKey` from `internal/docker/monitor.go`:
`image + "|" + strings.Join(sortedPairs, ",")`, with bare `image + "|"` for an
empty port map. -/
def makeContainerKey (image : String) (ports : Labels) : String :=
  if ports.isEmpty then image ++ "|"
  else image ++ "|" ++ String.intercalate "," (sortStrings (portPairStrings ports))

/-- `NewContainerKey` from the dashboard package (`ContainerKey` builder):
same construction as `makeContainerKey`. -/
def NewContainerKey (image : String) (ports : Labels) : String :=
  if ports.isEmpty then image ++ "|"
  else image ++ "|" ++ String.intercalate "," (sortStrings (portPairStrings ports))

/-- Sorting strings is invariant under permutation of the input. -/
theorem sortStrings_perm_eq {l₁ l₂ : List String} (h : List.Perm l₁ l₂) :
    sortStrings l₁ = sortStrings l₂ := by
  apply List.eq_of_perm_of_sorted (r := StrLe)
  · exact (List.perm_insertionSort _ l₁).trans
      (h.trans (List.perm_insertionSort _ l₂).symm)
  · exact List.sorted_insertionSort _ l₁
  · exact List.sorted_insertionSort _ l₂

/-- C8 (counterexample): with container ports `"80"` and `"8080"` the key's
pair order is decided by comparing the full `"containerPort:hostPort"`
strings, where `':' > '8'` puts `"8080:2"` first — not the order of the
container ports (`80` before `8080` both numerically and lexicographically). -/
theorem containerKey_order_cex :
    makeContainerKey "img" [("80", "1"), ("8080", "2")] = "img|8080:2,80:1" ∧
    makeContainerKey "img" [("80", "1"), ("8080", "2")] ≠ "img|80:1,8080:2" :=
  ⟨by decide, by decide⟩

/-- C8 (amended): `NewContainerKey` and `makeContainerKey` are extensionally
equal; the key is deterministic and independent of map iteration order
(invariant under permutation of the port bindings); and it is
`image + "|" +` the comma-join of the `"containerPort:hostPort"` pair strings
sorted lexicographically as whole strings (for an empty port map, just
`image + "|"`). -/
theorem containerKey_stable :
    (∀ (image : String) (ports : Labels),
        NewContainerKey image ports = makeContainerKey image ports) ∧
    (∀ (image : String) (p₁ p₂ : Labels), List.Perm p₁ p₂ →
        makeContainerKey image p₁ = makeContainerKey image p₂) ∧
    (∀ (image : String) (ports : Labels), ports.isEmpty = false →
        makeContainerKey image ports =
          image ++ "|" ++ String.intercalate "," (sortStrings (portPairStrings ports))) ∧
    (∀ image : String, makeContainerKey image [] = image ++ "|") := by
  refine ⟨fun _ _ => rfl, ?_, ?_, fun _ => rfl⟩
  · intro img p₁ p₂ hp
    unfold makeContainerKey
    have hempty : (p₁.isEmpty = true) ↔ (p₂.isEmpty = true) := by
      cases p₁ with
      | nil => cases p₂ with
        | nil => simp
        | cons b bs => exact absurd hp.length_eq (by simp)
      | cons a as => cases p₂ with
        | nil => exact absurd hp.length_eq (by simp)
        | cons b bs => simp [List.isEmpty]
    by_cases h : p₁.isEmpty = true
    · rw [if_pos h, if_pos (hempty.mp h)]
    · rw [if_neg h, if_neg (fun hh => h (hempty.mpr hh))]
      have hperm : List.Perm (portPairStrings p₁) (portPairStrings p₂) :=
        hp.map _
      rw [sortStrings_perm_eq hperm]
  · intro img ports hne
    unfold makeContainerKey
    rw [if_neg (by simp [hne])]

/-- Witness for `containerKey_stable`: the key of `nginx` with two port
bindings does not depend on the binding order. -/
theorem containerKey_stable_witness :
    makeContainerKey "nginx" [("443", "8443"), ("80", "8080")] =
      makeContainerKey "nginx" [("80", "8080"), ("443", "8443")] :=
  containerKey_stable.2.1 "nginx" _ _ (by decide)

example : makeContainerKey "nginx" [("443", "8443"), ("80", "8080")] =
    "nginx|443:8443,80:8080" := by decide

/-- Split a character list at the first occurrence of `sep`:
`some (before, after)` when `sep` occurs, `none` otherwise. -/
def splitFirstChar (sep : Char) : List Char → Option (List Char × List Char)
  | [] => none
  | c :: cs =>
    if c == sep then some ([], cs)
    else
      match splitFirstChar sep cs with
      | none => none
      | some (a, r) => some (c :: a, r)

/-- `strings.Split` on a single-character separator, fueled by the input
length (each round consumes at least the separator, so the fuel suffices). -/
def splitAllCharAux (sep : Char) : Nat → List Char → List (List Char)
  | 0, cs => [cs]
  | Nat.succ n, cs =>
    match splitFirstChar sep cs with
    | none => [cs]
    | some (a, r) => a :: splitAllCharAux sep n r

/-- `strings.Split(s, sep)` for a one-character separator. -/
def splitAllChar (sep : Char) (cs : List Char) : List (List Char) :=
  splitAllCharAux sep cs.length cs

/-- `strings.HasPrefix` at character level. -/
def goHasPfx (s p : String) : Bool :=
  p.toList.isPrefixOf s.toList

/-- Go ASCII whitespace (the fragment of `unicode.IsSpace` relevant here). -/
def isGoSpace (c : Char) : Bool :=
  c == ' ' || c == '\t' || c == '\n' || c == '\r'

/-- `strings.TrimSpace` at character level. -/
def goTrimSpace (s : String) : String :=
  String.mk (((s.toList.dropWhile isGoSpace).reverse.dropWhile isGoSpace).reverse)

/-- `EntryControl` from `internal/fpkgen` (permission settings of an entry). -/
structure EntryControl where
  accessPerm : String
  portPerm : String
  pathPerm : String
  deriving DecidableEq, Repr

/-- `Entry` from `internal/fpkgen` (one UI entry point of an app). -/
structure Entry where
  name : String
  title : String
  protocol : String
  port : String
  path : String
  uiType : String
  allUsers : Bool
  icon : String
  fileTypes : List String
  noDisplay : Bool
  control : Option EntryControl
  redirect : String
  deriving DecidableEq, Repr

/-- The recognized entry label suffixes (`entryFields` map in
`internal/fpkgen/generator.go`). -/
def entryFields : List String :=
  ["service_port", "protocol", "path", "ui_type", "all_users", "icon",
   "title", "file_types", "no_display", "control.access_perm",
   "control.port_perm", "control.path_perm", "redirect"]

/-- `isEntryField`: a suffix is an entry field when it is in the table or
starts with `control.`. -/
def isEntryField (field : String) : Bool :=
  entryFields.contains field || goHasPfx field "control."

/-- `hasDefaultEntry`: one of the five default-entry keys is present
(comma-ok lookup: presence counts even with an empty value). -/
def hasDefaultEntry (labels : Labels) : Bool :=
  (lookupLabel labels "watchcow.service_port").isSome ||
  (lookupLabel labels "watchcow.protocol").isSome ||
  (lookupLabel labels "watchcow.path").isSome ||
  (lookupLabel labels "watchcow.title").isSome ||
  (lookupLabel labels "watchcow.ui_type").isSome

/-- `strings.SplitN(s, ".", 2)`: at most two pieces, the second keeps any
further dots. -/
def goSplitN2Dot (s : String) : List String :=
  match splitFirstChar '.' s.toList with
  | none => [s]
  | some (a, r) => [String.mk a, String.mk r]

/-- Comma-split with `strings.TrimSpace`, dropping empty pieces
(the `file_types` loop of `parseEntry`). -/
def parseFileTypes (ft : String) : List String :=
  if ft == "" then []
  else (splitAllChar ',' ft.toList).filterMap (fun t =>
    let t := goTrimSpace (String.mk t)
    if t == "" then none else some t)

/-- The label prefix of an entry: `watchcow.` for the default entry,
`watchcow.<name>.` for a named entry (inlined in `parseEntry`). -/
def pfxOf (name : String) : String :=
  if name == "" then "watchcow." else "watchcow." ++ name ++ "."

/-- `parseEntry` from `internal/fpkgen/generator.go`. `buildIcon` stands for
`buildIconURL` (whose result depends on the environment and filesystem and is
passed in as a function). -/
def parseEntry (buildIcon : String → String) (labels : Labels)
    (name displayName defaultIcon : String) : Entry :=
  let pfx := pfxOf name
  let title0 := goGetLabel labels (pfx ++ "title") ""
  let title :=
    if title0 == "" then
      if name == "" then displayName else displayName ++ " - " ++ name
    else title0
  let iconFallback := if name == "" then defaultIcon else buildIcon name
  let fileTypes := parseFileTypes (goGetLabel labels (pfx ++ "file_types") "")
  let accessPerm := goGetLabel labels (pfx ++ "control.access_perm") ""
  let portPerm := goGetLabel labels (pfx ++ "control.port_perm") ""
  let pathPerm := goGetLabel labels (pfx ++ "control.path_perm") ""
  let control :=
    if accessPerm != "" || portPerm != "" || pathPerm != "" then
      some (EntryControl.mk accessPerm portPerm pathPerm)
    else none
  { name := name
    title := title
    protocol := goGetLabel labels (pfx ++ "protocol") "http"
    port := goGetLabel labels (pfx ++ "service_port") ""
    path := goGetLabel labels (pfx ++ "path") "/"
    uiType := goGetLabel labels (pfx ++ "ui_type") "url"
    allUsers := goGetLabel labels (pfx ++ "all_users") "true" == "true"
    icon := goGetLabel labels (pfx ++ "icon") iconFallback
    fileTypes := fileTypes
    noDisplay := goGetLabel labels (pfx ++ "no_display") "false" == "true"
    control := control
    redirect := goGetLabel labels (pfx ++ "redirect") "" }

/-- The port fallback applied to each parsed entry inside `ParseEntries`
(`if entry.Port == "" { entry.Port = defaultPort }`). -/
def entryWithPortFallback (defaultPort : String) (e : Entry) : Entry :=
  if e.port == "" then { e with port := defaultPort } else e

/-- The named-entry discovery scan of `ParseEntries`: names `n` with some
label `watchcow.<n>.<field>` whose field part is an entry field, deduplicated
in first-occurrence (map iteration) order. -/
def entryNamesOf (labels : Labels) : List String :=
  labels.foldl (fun acc kv =>
    if goHasPfx kv.1 "watchcow." then
      match goSplitN2Dot (kv.1.drop 9) with
      | [n, f] => if isEntryField f && !(acc.contains n) then acc ++ [n] else acc
      | _ => acc
    else acc) []

/-- `ParseEntries` from `internal/fpkgen/generator.go`: the default entry when
configured, then one entry per discovered name, each with the port fallback. -/
def ParseEntries (buildIcon : String → String) (labels : Labels)
    (displayName defaultIcon defaultPort : String) : List Entry :=
  (if hasDefaultEntry labels then
    [entryWithPortFallback defaultPort
      (parseEntry buildIcon labels "" displayName defaultIcon)]
  else []) ++
  (entryNamesOf labels).map (fun n =>
    entryWithPortFallback defaultPort
      (parseEntry buildIcon labels n displayName defaultIcon))

/-- The top-level port of `Generator.extractConfig`: the `watchcow.service_port`
label when set and non-empty, otherwise the container's first bound host
port. -/
def topPortOf (labels : Labels) (firstPort : String) : String :=
  let p := goGetLabel labels "watchcow.service_port" ""
  if p == "" then firstPort else p

/-- The entry list of `Generator.extractConfig`: `ParseEntries` with the
top-level port as fallback, and a single synthesized default entry from the
top-level app fields when no entry is configured. -/
def extractConfigEntries (buildIcon : String → String) (labels : Labels)
    (displayName defaultIcon firstPort : String) : List Entry :=
  let port := topPortOf labels firstPort
  let entries := ParseEntries buildIcon labels displayName defaultIcon port
  if entries.isEmpty then
    [{ name := ""
       title := displayName
       protocol := goGetLabel labels "watchcow.protocol" "http"
       port := port
       path := goGetLabel labels "watchcow.path" "/"
       uiType := goGetLabel labels "watchcow.ui_type" "url"
       allUsers := goGetLabel labels "watchcow.all_users" "true" == "true"
       icon := defaultIcon
       fileTypes := []
       noDisplay := goGetLabel labels "watchcow.no_display" "false" == "true"
       control := none
       redirect := goGetLabel labels "watchcow.redirect" "" }]
  else entries

/-- A label that `getLabel` resolves to its empty fallback is unset (absent or
empty); then `getLabel` yields any other fallback as is. -/
theorem goGetLabel_of_unset {labels : Labels} {k : String}
    (h : goGetLabel labels k "" = "") (d : String) :
    goGetLabel labels k d = d := by
  unfold goGetLabel at h ⊢
  cases hl : lookupLabel labels k with
  | none => rfl
  | some v =>
    rw [hl] at h
    by_cases hv : v == ""
    · simp [hv]
    · simp [hv] at h
      simp [h] at hv

/-- `parseEntry` labels the entry with the requested name. -/
theorem parseEntry_name (b : String → String) (l : Labels) (n dn ic : String) :
    (parseEntry b l n dn ic).name = n := rfl

/-- Field preservation and port fallback of `entryWithPortFallback`. -/
theorem entryWithPortFallback_fields (dp : String) (e : Entry) :
    (entryWithPortFallback dp e).name = e.name ∧
    (entryWithPortFallback dp e).title = e.title ∧
    (entryWithPortFallback dp e).protocol = e.protocol ∧
    (entryWithPortFallback dp e).path = e.path ∧
    (entryWithPortFallback dp e).uiType = e.uiType ∧
    (entryWithPortFallback dp e).allUsers = e.allUsers ∧
    (entryWithPortFallback dp e).noDisplay = e.noDisplay ∧
    (entryWithPortFallback dp e).port = (if e.port == "" then dp else e.port) := by
  unfold entryWithPortFallback
  by_cases h : e.port == "" <;> simp [h]

/-- Default values of a parsed entry (with the port fallback applied): every
unset field takes its documented default. -/
theorem parseEntry_defaults (b : String → String) (l : Labels)
    (n dn ic dp : String) :
    ((entryWithPortFallback dp (parseEntry b l n dn ic)).name = n) ∧
    (goGetLabel l (pfxOf n ++ "title") "" = "" →
      (entryWithPortFallback dp (parseEntry b l n dn ic)).title =
        if n = "" then dn else dn ++ " - " ++ n) ∧
    (goGetLabel l (pfxOf n ++ "protocol") "" = "" →
      (entryWithPortFallback dp (parseEntry b l n dn ic)).protocol = "http") ∧
    (goGetLabel l (pfxOf n ++ "path") "" = "" →
      (entryWithPortFallback dp (parseEntry b l n dn ic)).path = "/") ∧
    (goGetLabel l (pfxOf n ++ "ui_type") "" = "" →
      (entryWithPortFallback dp (parseEntry b l n dn ic)).uiType = "url") ∧
    (goGetLabel l (pfxOf n ++ "all_users") "" = "" →
      (entryWithPortFallback dp (parseEntry b l n dn ic)).allUsers = true) ∧
    (goGetLabel l (pfxOf n ++ "no_display") "" = "" →
      (entryWithPortFallback dp (parseEntry b l n dn ic)).noDisplay = false) ∧
    (goGetLabel l (pfxOf n ++ "service_port") "" = "" →
      (entryWithPortFallback dp (parseEntry b l n dn ic)).port = dp) := by
  obtain ⟨hn, ht, hpr, hpa, hui, hau, hnd, hpo⟩ :=
    entryWithPortFallback_fields dp (parseEntry b l n dn ic)
  refine ⟨by rw [hn]; rfl, ?_, ?_, ?_, ?_, ?_, ?_, ?_⟩
  · intro h
    rw [ht]
    show (if goGetLabel l (pfxOf n ++ "title") "" == "" then
      if n == "" then dn else dn ++ " - " ++ n
      else goGetLabel l (pfxOf n ++ "title") "") = _
    rw [h]
    by_cases hn0 : n = "" <;> simp [hn0]
  · intro h
    rw [hpr]
    show goGetLabel l (pfxOf n ++ "protocol") "http" = "http"
    exact goGetLabel_of_unset h _
  · intro h
    rw [hpa]
    show goGetLabel l (pfxOf n ++ "path") "/" = "/"
    exact goGetLabel_of_unset h _
  · intro h
    rw [hui]
    show goGetLabel l (pfxOf n ++ "ui_type") "url" = "url"
    exact goGetLabel_of_unset h _
  · intro h
    rw [hau]
    show (goGetLabel l (pfxOf n ++ "all_users") "true" == "true") = true
    rw [goGetLabel_of_unset h]
    rfl
  · intro h
    rw [hnd]
    show (goGetLabel l (pfxOf n ++ "no_display") "false" == "true") = false
    rw [goGetLabel_of_unset h]
    rfl
  · intro h
    rw [hpo]
    show (if goGetLabel l (pfxOf n ++ "service_port") "" == "" then dp
      else goGetLabel l (pfxOf n ++ "service_port") "") = dp
    rw [h]
    rfl

/-- The names of the parsed-with-fallback entries over a name list are the
names themselves. -/
theorem mapped_entry_names (b : String → String) (l : Labels)
    (dn ic dp : String) (names : List String) :
    (names.map (fun n =>
      entryWithPortFallback dp (parseEntry b l n dn ic))).map Entry.name =
      names := by
  rw [List.map_map]
  have : ∀ n ∈ names,
      (Entry.name ∘ fun n => entryWithPortFallback dp (parseEntry b l n dn ic)) n
        = id n := by
    intro n _
    simpa using (parseEntry_defaults b l n dn ic dp).1
  rw [List.map_congr_left this, List.map_id]

/-- C3 (counterexample): with labels
`watchcow.service_port = "1111"` and `watchcow.admin.title = "Admin"` and the
container's first host port `"2222"`, the named entry `admin` has no
`service_port` label of its own, yet its port is `"1111"` (the top-level
`watchcow.service_port` label), not the container's first host port `"2222"`
that the claim prescribes. -/
theorem parseEntries_port_cex :
    ((extractConfigEntries (fun _ => "")
        [("watchcow.service_port", "1111"), ("watchcow.admin.title", "Admin")]
        "App" "i" "2222").find? (fun e => e.name == "admin")).map Entry.port =
      some "1111" ∧ ("1111" : String) ≠ "2222" :=
  ⟨by decide, by decide⟩

/-- The per-entry default-value conjunction, for an entry produced by
`parseEntry` with the port fallback. -/
theorem entry_defaults_of_eq (b : String → String) (labels : Labels)
    (dn ic dp n : String) (e : Entry)
    (he2 : e = entryWithPortFallback dp (parseEntry b labels n dn ic)) :
    (goGetLabel labels (pfxOf e.name ++ "title") "" = "" →
      e.title = if e.name = "" then dn else dn ++ " - " ++ e.name) ∧
    (goGetLabel labels (pfxOf e.name ++ "protocol") "" = "" →
      e.protocol = "http") ∧
    (goGetLabel labels (pfxOf e.name ++ "path") "" = "" → e.path = "/") ∧
    (goGetLabel labels (pfxOf e.name ++ "ui_type") "" = "" →
      e.uiType = "url") ∧
    (goGetLabel labels (pfxOf e.name ++ "all_users") "" = "" →
      e.allUsers = true) ∧
    (goGetLabel labels (pfxOf e.name ++ "no_display") "" = "" →
      e.noDisplay = false) ∧
    (goGetLabel labels (pfxOf e.name ++ "service_port") "" = "" →
      e.port = dp) := by
  obtain ⟨h1, h2, h3, h4, h5, h6, h7, h8⟩ :=
    parseEntry_defaults b labels n dn ic dp
  have hname : e.name = n := by rw [he2]; exact h1
  subst he2
  rw [hname]
  exact ⟨h2, h3, h4, h5, h6, h7, h8⟩

/-- C3 (amended): entry extraction yields the default entry exactly when one
of `service_port`, `protocol`, `path`, `title`, `ui_type` appears directly
under `watchcow.`, plus one named entry per distinct name `n` with some label
`watchcow.<n>.<field>` whose field is an entry field per `isEntryField`
(the recognized table or any `control.`-prefixed field); when neither exists,
exactly one default entry is synthesized; and in every produced entry an
unset field takes its default: protocol `http`, path `/`, ui-type `url`,
all-users true, no-display false, title `displayName` for the default entry
and `displayName - name` for a named one, and the port — when the entry has
none — the top-level port (the `watchcow.service_port` label when set,
otherwise the container's first host port). -/
theorem extractConfigEntries_amended (b : String → String) (labels : Labels)
    (dn ic fp : String) :
    ((extractConfigEntries b labels dn ic fp).map Entry.name =
      (if hasDefaultEntry labels then "" :: entryNamesOf labels
       else if (entryNamesOf labels).isEmpty then [""]
       else entryNamesOf labels)) ∧
    (∀ e ∈ extractConfigEntries b labels dn ic fp,
      (goGetLabel labels (pfxOf e.name ++ "title") "" = "" →
        e.title = if e.name = "" then dn else dn ++ " - " ++ e.name) ∧
      (goGetLabel labels (pfxOf e.name ++ "protocol") "" = "" →
        e.protocol = "http") ∧
      (goGetLabel labels (pfxOf e.name ++ "path") "" = "" → e.path = "/") ∧
      (goGetLabel labels (pfxOf e.name ++ "ui_type") "" = "" →
        e.uiType = "url") ∧
      (goGetLabel labels (pfxOf e.name ++ "all_users") "" = "" →
        e.allUsers = true) ∧
      (goGetLabel labels (pfxOf e.name ++ "no_display") "" = "" →
        e.noDisplay = false) ∧
      (goGetLabel labels (pfxOf e.name ++ "service_port") "" = "" →
        e.port = topPortOf labels fp)) := by
  have hpn : (ParseEntries b labels dn ic (topPortOf labels fp)).map Entry.name
      = (if hasDefaultEntry labels then [""] else []) ++ entryNamesOf labels := by
    unfold ParseEntries
    rw [List.map_append, mapped_entry_names]
    by_cases hd : hasDefaultEntry labels
    · have hname0 : (entryWithPortFallback (topPortOf labels fp)
          (parseEntry b labels "" dn ic)).name = "" :=
        (parseEntry_defaults b labels "" dn ic (topPortOf labels fp)).1
      simp [hd, hname0]
    · simp [hd]
  constructor
  · unfold extractConfigEntries
    by_cases hempty :
        (ParseEntries b labels dn ic (topPortOf labels fp)).isEmpty = true
    · rw [if_pos hempty]
      have hnil : ParseEntries b labels dn ic (topPortOf labels fp) = [] := by
        cases hps : ParseEntries b labels dn ic (topPortOf labels fp) with
        | nil => rfl
        | cons x xs => rw [hps] at hempty; exact absurd hempty (by simp)
      rw [hnil] at hpn
      rcases List.append_eq_nil.mp hpn.symm with ⟨ha, hb⟩
      have hd' : hasDefaultEntry labels = false := by
        by_cases hd : hasDefaultEntry labels
        · rw [if_pos hd] at ha
          exact absurd ha (by simp)
        · simpa using hd
      rw [hd', hb]
      simp
    · rw [if_neg hempty]
      rw [hpn]
      by_cases hd : hasDefaultEntry labels
      · simp [hd]
      · have hd' : hasDefaultEntry labels = false := by simpa using hd
        simp only [hd', Bool.false_eq_true, if_false, List.nil_append]
        cases hnames : entryNamesOf labels with
        | nil =>
          exfalso
          rw [hd', hnames] at hpn
          have hnil : ParseEntries b labels dn ic (topPortOf labels fp) = [] := by
            have := hpn
            simp only [Bool.false_eq_true, if_false, List.nil_append] at this
            exact List.map_eq_nil_iff.mp this
          rw [hnil] at hempty
          exact hempty rfl
        | cons n ns => simp
  · intro e he
    unfold extractConfigEntries at he
    by_cases hempty :
        (ParseEntries b labels dn ic (topPortOf labels fp)).isEmpty
    · rw [if_pos (by simpa using hempty)] at he
      simp only [List.mem_singleton] at he
      subst he
      refine ⟨fun _ => rfl, ?_, ?_, ?_, ?_, ?_, fun _ => rfl⟩
      · intro h
        exact goGetLabel_of_unset h _
      · intro h
        exact goGetLabel_of_unset h _
      · intro h
        exact goGetLabel_of_unset h _
      · intro h
        have h2 : goGetLabel labels "watchcow.all_users" "" = "" := h
        show (goGetLabel labels "watchcow.all_users" "true" == "true") = true
        rw [goGetLabel_of_unset h2]
        rfl
      · intro h
        have h2 : goGetLabel labels "watchcow.no_display" "" = "" := h
        show (goGetLabel labels "watchcow.no_display" "false" == "true") = false
        rw [goGetLabel_of_unset h2]
        rfl
    · rw [if_neg (by simpa using hempty)] at he
      unfold ParseEntries at he
      rw [List.mem_append] at he
      rcases he with hdef | hnamed
      · have hdef2 : hasDefaultEntry labels = true ∧
            e = entryWithPortFallback (topPortOf labels fp)
              (parseEntry b labels "" dn ic) := by
          simpa using hdef
        exact entry_defaults_of_eq b labels dn ic (topPortOf labels fp) "" e
          hdef2.2
      · rcases List.mem_map.mp hnamed with ⟨n, _, hn⟩
        exact entry_defaults_of_eq b labels dn ic (topPortOf labels fp) n e
          hn.symm

/-- Witness for `extractConfigEntries_amended`: a single default entry for a
container labelled only with a service port. -/
theorem extractConfigEntries_amended_witness :
    (extractConfigEntries (fun _ => "") [("watchcow.service_port", "8080")]
      "Memos" "i" "5230").map Entry.name = [""] := by
  have h := (extractConfigEntries_amended (fun _ => "")
    [("watchcow.service_port", "8080")] "Memos" "i" "5230").1
  rw [h]
  decide

/-- `App` from `internal/app`: the fields consulted by the redirect handler
and the lifecycle controller (package-generation metadata, volumes,
environment and the legacy single-entry fields are not read by the verified
operations and are omitted). -/
structure App where
  appName : String
  displayName : String
  containerID : String
  containerName : String
  image : String
  entries : List Entry
  status : String
  deriving DecidableEq, Repr

/-- The registry's concurrent map (`Registry.apps`), keyed by app name; at
most one app per name (`Register` is `Store`, i.e. upsert). -/
abbrev Registry : Type := List App

/-- `Registry.Get`: the app with the given name, or none. -/
def registryGet (r : Registry) (appName : String) : Option App :=
  r.find? (fun a => a.appName == appName)

/-- `Registry.Unregister`: delete the app with the given name. -/
def registryUnregister (r : Registry) (appName : String) : Registry :=
  r.filter (fun a => !(a.appName == appName))

/-- `App.GetEntry`: the entry with the given name (empty string for the
default entry), or none. -/
def GetEntry (a : App) (name : String) : Option Entry :=
  a.entries.find? (fun e => e.name == name)

/-- Query-string key characters `[a-zA-Z0-9_~.%-]`. -/
def isQSKeyChar (c : Char) : Bool :=
  c.isAlpha || c.isDigit || c == '_' || c == '~' || c == '.' || c == '%' ||
    c == '-'

/-- Query-string value characters: the key characters plus the slash. -/
def isQSValChar (c : Char) : Bool :=
  isQSKeyChar c || c == '/'

/-- One `key=value` component of `validQueryStringPattern`: a non-empty
key of key characters, `=`, then value characters. -/
def validQueryComponent (cs : List Char) : Bool :=
  match splitFirstChar '=' cs with
  | some (k, v) => !k.isEmpty && k.all isQSKeyChar && v.all isQSValChar
  | none => false

/-- The regular language of `validQueryStringPattern`: a sequence of
`&`-separated `key=value` components, or the empty string. -/
def validQueryString (qs : String) : Bool :=
  qs == "" || (splitAllChar '&' qs.toList).all validQueryComponent

/-- `sanitizeQueryString`: the query string itself when it matches the
pattern, the empty string otherwise. -/
def sanitizeQueryString (qs : String) : String :=
  if validQueryString qs then qs else ""

/-- The observable outcome of a redirect-handler request: an error page with
an HTTP status, or the 200 self-detecting HTML page rendered from the
redirect host, container port, residual path and sanitized query. -/
inductive HTTPResponse where
  | error (status : Nat) (body : String)
  | page (redirectHost containerPort path query : String)
  deriving DecidableEq, Repr

/-- `strings.TrimPrefix` at character level. -/
def stripPfx : List Char → List Char → Option (List Char)
  | [], cs => some cs
  | _ :: _, [] => none
  | p :: ps, c :: cs => if c == p then stripPfx ps cs else none

/-- `strings.TrimPrefix(s, p)`: drop `p` when it is a prefix of `s`. -/
def goTrimPrefixL (cs ps : List Char) : List Char :=
  (stripPfx ps cs).getD cs

/-- `strings.SplitN(s, "/", 3)` at character level. -/
def goSplitN3Slash (cs : List Char) : List (List Char) :=
  match splitFirstChar '/' cs with
  | none => [cs]
  | some (a, r) =>
    match splitFirstChar '/' r with
    | none => [a, r]
    | some (c, r2) => [a, c, r2]

/-- The post-parsing tail of `RedirectHandler.ServeHTTP`: registry lookup,
entry lookup, redirect check, page rendering. -/
def routeRedirect (registry : Registry) (appName entryName path rawQuery : String) :
    HTTPResponse :=
  match registryGet registry appName with
  | none => .error 404 ("App not found: " ++ appName)
  | some a =>
    match GetEntry a entryName with
    | none =>
      .error 404 ("Entry not found: " ++ entryName ++ " (app: " ++
        appName ++ ")")
    | some e =>
      if e.redirect == "" then
        .error 400 ("Entry does not have redirect configured: " ++ entryName)
      else
        .page e.redirect e.port path (sanitizeQueryString rawQuery)

/-- `RedirectHandler.ServeHTTP` from the registry-backed redirect handler:
strip `/redirect/`, split into `<appname>/<entry>[/<path...>]` (at most three
pieces), translate `_` to the default entry, then look up the registry and the
entry; missing app or entry is 404, an empty `redirect` field is 400, and
otherwise the self-detecting page is rendered with the entry's redirect and
port, the residual path, and the sanitized request query. -/
def serveRedirect (registry : Registry) (urlPath rawQuery : String) :
    HTTPResponse :=
  let pathInfo := goTrimPrefixL urlPath.toList "/redirect/".toList
  let parts := goSplitN3Slash pathInfo
  if parts.length < 2 then
    .error 400 "Invalid path format, expected: /<appname>/<entry>[/<path>]"
  else
    let appName := String.mk (parts.getD 0 [])
    let entrySeg := String.mk (parts.getD 1 [])
    let path :=
      if parts.length == 3 && !(parts.getD 2 []).isEmpty then
        String.mk ('/' :: parts.getD 2 [])
      else "/"
    let entryName := if entrySeg == "_" then "" else entrySeg
    routeRedirect registry appName entryName path rawQuery

/-- Stripping a literal prefix from the concatenation succeeds. -/
theorem stripPfx_append (ps rest : List Char) :
    stripPfx ps (ps ++ rest) = some rest := by
  induction ps with
  | nil => rfl
  | cons p ps ih => simp [stripPfx, ih]

/-- A split at a separator that does not occur yields nothing. -/
theorem splitFirstChar_not_mem {sep : Char} {cs : List Char} (h : sep ∉ cs) :
    splitFirstChar sep cs = none := by
  induction cs with
  | nil => rfl
  | cons c cs ih =>
    have hcne : (c == sep) = false := by
      simp only [beq_eq_false_iff_ne, ne_eq]
      intro hq
      exact h (hq ▸ List.mem_cons_self c cs)
    simp [splitFirstChar, hcne,
      ih (fun hm => h (List.mem_cons_of_mem c hm))]

/-- A split at the first explicit separator occurrence. -/
theorem splitFirstChar_append {sep : Char} {a : List Char} (h : sep ∉ a)
    (r : List Char) : splitFirstChar sep (a ++ sep :: r) = some (a, r) := by
  induction a with
  | nil => simp [splitFirstChar]
  | cons c cs ih =>
    have hcne : (c == sep) = false := by
      simp only [beq_eq_false_iff_ne, ne_eq]
      intro hq
      exact h (hq ▸ List.mem_cons_self c cs)
    simp [splitFirstChar, hcne,
      ih (fun hm => h (List.mem_cons_of_mem c hm))]

/-- The request path of `GET /redirect/<appname>/<entry>[/<path...>]`. -/
def redirectRequestPath (appCs entryCs tailCs : List Char) : String :=
  String.mk ("/redirect/".toList ++ appCs ++ '/' :: (entryCs ++ tailCs))

/-- The residual path the handler passes to the page: `/` when the optional
tail is empty or just `/`, the tail itself otherwise. -/
def pathOfTail (tailCs : List Char) : String :=
  if tailCs.length ≤ 1 then "/" else String.mk tailCs

/-- Parsing of a well-formed redirect request: the handler reduces to the
registry lookup with the decoded app name, entry name (`_` mapped to the
default entry) and residual path. -/
theorem serveRedirect_parses (registry : Registry)
    (appCs entryCs tailCs : List Char) (rawQuery : String)
    (hApp : '/' ∉ appCs) (hEntry : '/' ∉ entryCs)
    (hTail : tailCs = [] ∨ ∃ t, tailCs = '/' :: t) :
    serveRedirect registry (redirectRequestPath appCs entryCs tailCs) rawQuery
      = routeRedirect registry (String.mk appCs)
          (if String.mk entryCs == "_" then "" else String.mk entryCs)
          (pathOfTail tailCs) rawQuery := by
  have hstrip : goTrimPrefixL (redirectRequestPath appCs entryCs tailCs).toList
      "/redirect/".toList = appCs ++ '/' :: (entryCs ++ tailCs) := by
    show goTrimPrefixL ("/redirect/".toList ++ (appCs ++ '/' :: (entryCs ++ tailCs)))
      "/redirect/".toList = _
    unfold goTrimPrefixL
    rw [stripPfx_append]
    rfl
  rcases hTail with htail | ⟨t, htail⟩
  · subst htail
    have hsplit : goSplitN3Slash (appCs ++ '/' :: (entryCs ++ [])) =
        [appCs, entryCs] := by
      rw [List.append_nil]
      unfold goSplitN3Slash
      rw [splitFirstChar_append hApp]
      simp [splitFirstChar_not_mem hEntry]
    unfold serveRedirect
    rw [hstrip]
    simp only [hsplit]
    rfl
  · subst htail
    have hsplit : goSplitN3Slash (appCs ++ '/' :: (entryCs ++ '/' :: t)) =
        [appCs, entryCs, t] := by
      unfold goSplitN3Slash
      rw [splitFirstChar_append hApp]
      simp [splitFirstChar_append hEntry]
    unfold serveRedirect
    rw [hstrip]
    simp only [hsplit]
    cases t with
    | nil => rfl
    | cons x xs => rfl

/-- The entry name denoted by the `<entry>` path segment: `_` names the
default (empty-named) entry. -/
def entryNameOfSeg (entryCs : List Char) : String :=
  if String.mk entryCs == "_" then "" else String.mk entryCs

/-- C7: for every request `GET /redirect/<appname>/<entry>[/<path...>]`
(with `_` denoting the default entry), the handler returns 404 when the app
is not in the registry or the named entry does not exist on it, returns 400
containing `does not have redirect configured` when the entry exists but its
redirect field is empty, and otherwise returns 200 with the rendered
self-detecting page. -/
theorem serveRedirect_error_handling (registry : Registry)
    (appCs entryCs tailCs : List Char) (rawQuery : String)
    (hApp : '/' ∉ appCs) (hEntry : '/' ∉ entryCs)
    (hTail : tailCs = [] ∨ ∃ t, tailCs = '/' :: t) :
    (registryGet registry (String.mk appCs) = none →
      serveRedirect registry (redirectRequestPath appCs entryCs tailCs)
          rawQuery =
        .error 404 ("App not found: " ++ String.mk appCs)) ∧
    (∀ a, registryGet registry (String.mk appCs) = some a →
      GetEntry a (entryNameOfSeg entryCs) = none →
      serveRedirect registry (redirectRequestPath appCs entryCs tailCs)
          rawQuery =
        .error 404 ("Entry not found: " ++ entryNameOfSeg entryCs ++
          " (app: " ++ String.mk appCs ++ ")")) ∧
    (∀ a e, registryGet registry (String.mk appCs) = some a →
      GetEntry a (entryNameOfSeg entryCs) = some e → e.redirect = "" →
      serveRedirect registry (redirectRequestPath appCs entryCs tailCs)
          rawQuery =
        .error 400 ("Entry does not have redirect configured: " ++
          entryNameOfSeg entryCs)) ∧
    (∀ a e, registryGet registry (String.mk appCs) = some a →
      GetEntry a (entryNameOfSeg entryCs) = some e → e.redirect ≠ "" →
      serveRedirect registry (redirectRequestPath appCs entryCs tailCs)
          rawQuery =
        .page e.redirect e.port (pathOfTail tailCs)
          (sanitizeQueryString rawQuery)) := by
  have hp := serveRedirect_parses registry appCs entryCs tailCs rawQuery
    hApp hEntry hTail
  rw [hp]
  unfold routeRedirect entryNameOfSeg
  refine ⟨?_, ?_, ?_, ?_⟩
  · intro h
    simp only [h]
  · intro a h he
    simp only [h, he]
  · intro a e h he hr
    simp only [h, he]
    simp [hr]
  · intro a e h he hr
    simp only [h, he]
    simp [hr]

/-- A registry entry used to witness the redirect handler's behavior
(the spec's S5 scenario). -/
def testNginxEntry : Entry :=
  { name := ""
    title := "Nginx"
    protocol := "http"
    port := "27890"
    path := "/"
    uiType := "url"
    allUsers := true
    icon := ""
    fileTypes := []
    noDisplay := false
    control := none
    redirect := "https://www.bilibili.com" }

/-- The app holding `testNginxEntry`. -/
def testNginxApp : App :=
  { appName := "watchcow.nginx"
    displayName := "Nginx"
    containerID := "abc123"
    containerName := "nginx"
    image := "nginx:alpine"
    entries := [testNginxEntry]
    status := "running" }

/-- Witness for `serveRedirect_error_handling`:
`GET /redirect/watchcow.nginx/_/index.html` renders the page with the
entry's redirect host, its port, and the residual path. -/
theorem serveRedirect_error_handling_witness :
    serveRedirect [testNginxApp]
        (redirectRequestPath "watchcow.nginx".toList "_".toList
          "/index.html".toList) "" =
      HTTPResponse.page "https://www.bilibili.com" "27890"
        (pathOfTail "/index.html".toList) (sanitizeQueryString "") := by
  have h := (serveRedirect_error_handling [testNginxApp]
    "watchcow.nginx".toList "_".toList "/index.html".toList ""
    (by decide) (by decide)
    (Or.inr ⟨"index.html".toList, by decide⟩)).2.2.2
  exact h testNginxApp testNginxEntry (by decide) (by decide) (by decide)

/-- Split a character list at the first character satisfying `p`:
`(before, rest)` with `rest` starting at the first hit (or empty). -/
def takeUntil (p : Char → Bool) : List Char → List Char × List Char
  | [] => ([], [])
  | c :: cs =>
    if p c then ([], c :: cs)
    else
      let r := takeUntil p cs
      (c :: r.1, r.2)

/-- The components of `net/url.URL` read by `parseRedirectHost`. -/
structure GoURL where
  scheme : String
  host : String
  path : String
  rawQuery : String
  deriving DecidableEq, Repr

/-- Model of `url.Parse` on the fragment reachable from `parseRedirectHost`:
the input always carries an `http://` or `https://` scheme (a synthetic one
is prepended otherwise), the fragment after `#` is dropped, the authority
runs to the first `/` or `?`, the path to the first `?`, and the query is the
remainder. Parse errors of the Go library (invalid port, control characters)
are not modelled, so `parseRedirectHost`'s error fallback is dead here. -/
def goURLParse (s : String) : Option GoURL :=
  let schemeRest :=
    if goHasPfx s "http://" then some ("http", s.toList.drop 7)
    else if goHasPfx s "https://" then some ("https", s.toList.drop 8)
    else none
  match schemeRest with
  | none => none
  | some (scheme, rest) =>
    let beforeFrag := (takeUntil (fun c => c == '#') rest).1
    let hostRest := takeUntil (fun c => c == '/' || c == '?') beforeFrag
    match hostRest.2 with
    | [] => some ⟨scheme, String.mk hostRest.1, "", ""⟩
    | '?' :: q => some ⟨scheme, String.mk hostRest.1, "", String.mk q⟩
    | r =>
      let pathRest := takeUntil (fun c => c == '?') r
      some ⟨scheme, String.mk hostRest.1, String.mk pathRest.1,
        String.mk (pathRest.2.drop 1)⟩

/-- `parsedRedirect` from the redirect handler: base (scheme + host, or bare
host when the input had no scheme), path, and sanitized query. -/
structure parsedRedirect where
  base : String
  path : String
  query : String
  deriving DecidableEq, Repr

/-- `parseRedirectHost`: prepend a transient `http://` when the spec has no
scheme, parse as a URL, and emit base (without the synthetic scheme), path,
and the sanitized query. -/
def parseRedirectHost (host : String) : parsedRedirect :=
  let hasScheme := goHasPfx host "http://" || goHasPfx host "https://"
  let urlStr := if hasScheme then host else "http://" ++ host
  match goURLParse urlStr with
  | none => { base := host, path := "", query := "" }
  | some u =>
    { base := if hasScheme then u.scheme ++ "://" ++ u.host else u.host
      path := u.path
      query := sanitizeQueryString u.rawQuery }

/-- C9 (counterexample): `parse("https://h/p?q")` yields query `""`, not the
claimed `"q"`: the raw query `q` has no `key=value` shape, so
`sanitizeQueryString` replaces it by the empty string. -/
theorem parseRedirectHost_query_cex :
    parseRedirectHost "https://h/p?q" =
      { base := "https://h", path := "/p", query := "" } ∧
    parseRedirectHost "https://h/p?q" ≠
      { base := "https://h", path := "/p", query := "q" } :=
  ⟨by decide, by decide⟩

/-- C9 (amended): the redirect parser satisfies
`parse("https://h/p?q") = {base "https://h", path "/p", query ""}` (the bare
query `q` fails the `key=value` sanitation; a well-formed query such as
`q=1` is kept), `parse("h:8080") = {base "h:8080", path "", query ""}` and
`parse("h/p/r") = {base "h", path "/p/r", query ""}` — a bare `host[:port]`
is parsed through a transient synthetic scheme and its base omits the
scheme. -/
theorem parseRedirectHost_amended :
    parseRedirectHost "https://h/p?q" =
      { base := "https://h", path := "/p", query := "" } ∧
    parseRedirectHost "https://h/p?q=1" =
      { base := "https://h", path := "/p", query := "q=1" } ∧
    parseRedirectHost "h:8080" = { base := "h:8080", path := "", query := "" } ∧
    parseRedirectHost "h/p/r" = { base := "h", path := "/p/r", query := "" } ∧
    sanitizeQueryString "q" = "" := by
  refine ⟨by decide, by decide, by decide, by decide, by decide⟩

/-- `docker.StoredEntry`: a saved entry configuration. -/
structure StoredEntryD where
  name : String
  title : String
  protocol : String
  port : String
  path : String
  uiType : String
  allUsers : Bool
  fileTypes : List String
  noDisplay : Bool
  redirect : String
  iconBase64 : String
  deriving DecidableEq, Repr

/-- `docker.StoredConfig`: a saved container configuration from the
dashboard. -/
structure StoredConfigD where
  appName : String
  displayName : String
  description : String
  version : String
  maintainer : String
  entries : List StoredEntryD
  iconBase64 : String
  deriving DecidableEq, Repr

/-- `docker.ContainerState`: the controller's per-container record. -/
structure ContainerStateR where
  containerID : String
  containerName : String
  image : String
  state : String
  ports : Labels
  labels : Labels
  networkMode : String
  appName : String
  installed : Bool
  deriving DecidableEq, Repr

/-- `docker.AppOperation`: a unit of work for the single-writer worker
(the `ResultCh` channel field is never used by the verified paths and is
omitted). -/
structure AppOperation where
  type : String
  appName : String
  appDir : String
  containerID : String
  containerName : String
  labels : Labels
  storedConfig : Option StoredConfigD
  deriving DecidableEq, Repr

/-- `m.containers.Load(id)` on the controller's `sync.Map`, modelled as an
association list with unique keys. -/
def lookupContainer (m : List (String × ContainerStateR)) (cid : String) :
    Option ContainerStateR :=
  (m.find? (fun kv => kv.1 == cid)).map (fun kv => kv.2)

/-- `m.containers.Delete(id)`. -/
def deleteContainer (m : List (String × ContainerStateR)) (cid : String) :
    List (String × ContainerStateR) :=
  m.filter (fun kv => !(kv.1 == cid))

/-- The controller state touched by `processDestroy`: the container map and
the app registry. -/
structure DestroyState where
  containers : List (String × ContainerStateR)
  registry : Registry
  deriving DecidableEq, Repr

/-- `Monitor.processDestroy`: skip untracked containers; otherwise remove the
container from tracking, unregister its app name, and call
`installer.Uninstall` exactly when the state was `Installed` and an installer
is present. The returned flag records whether `Uninstall` was invoked; its
error (the `uninstallOk` argument) is discarded by the source, so the
resulting state ignores it. -/
def processDestroy (installerPresent : Bool) (uninstallOk : Bool)
    (st : DestroyState) (containerID : String) : DestroyState × Bool :=
  let _ := uninstallOk
  match lookupContainer st.containers containerID with
  | none => (st, false)
  | some cs =>
    ({ containers := deleteContainer st.containers containerID
       registry := registryUnregister st.registry cs.appName },
     cs.installed && installerPresent)

/-- A tracked container that is not marked installed (e.g. its install
failed), used to refute the unconditional-uninstall claim. -/
def cexNotInstalled : ContainerStateR :=
  { containerID := "c1"
    containerName := "web"
    image := "img"
    state := "exited"
    ports := []
    labels := []
    networkMode := "bridge"
    appName := "watchcow.web"
    installed := false }

/-- C2 (counterexample): a destroy operation on a tracked container whose
`Installed` flag is false does not invoke the installer's uninstall, even
with an installer present — the code guards the uninstall with
`wasInstalled`. -/
theorem processDestroy_uninstall_cex :
    (lookupContainer [("c1", cexNotInstalled)] "c1").isSome = true ∧
    (processDestroy true true ⟨[("c1", cexNotInstalled)], []⟩ "c1").2 =
      false :=
  ⟨by decide, by decide⟩

/-- C2 (amended): destroying a tracked container removes it from the
container map and unregisters its app name from the registry, both
independent of whether the installer's uninstall succeeds, and invokes the
installer's uninstall exactly when the container was still tracked as
installed (and an installer is present); an untracked container is
skipped. -/
theorem processDestroy_amended (p u₁ u₂ : Bool) (st : DestroyState)
    (cid : String) :
    (∀ cs, lookupContainer st.containers cid = some cs →
      lookupContainer (processDestroy p u₁ st cid).1.containers cid = none ∧
      registryGet (processDestroy p u₁ st cid).1.registry cs.appName = none ∧
      (processDestroy p u₁ st cid).2 = (cs.installed && p)) ∧
    processDestroy p u₁ st cid = processDestroy p u₂ st cid ∧
    (lookupContainer st.containers cid = none →
      processDestroy p u₁ st cid = (st, false)) := by
  refine ⟨?_, rfl, ?_⟩
  · intro cs hcs
    unfold processDestroy
    rw [hcs]
    refine ⟨?_, ?_, rfl⟩
    · unfold lookupContainer deleteContainer
      rw [List.find?_eq_none.mpr]
      · rfl
      · intro kv hkv
        have := List.of_mem_filter hkv
        simpa using this
    · unfold registryGet registryUnregister
      rw [List.find?_eq_none.mpr]
      intro a ha
      have := List.of_mem_filter ha
      simpa using this
  · intro hnone
    unfold processDestroy
    rw [hnone]

/-- Witness for `processDestroy_amended`: destroying the tracked container
removes it and its registry entry, and triggers the uninstall since it was
installed. -/
theorem processDestroy_amended_witness :
    lookupContainer
        (processDestroy true false
          ⟨[("c1", { cexNotInstalled with installed := true })],
            [testNginxApp]⟩ "c1").1.containers "c1" = none ∧
    (processDestroy true false
        ⟨[("c1", { cexNotInstalled with installed := true })],
          [testNginxApp]⟩ "c1").2 = true := by
  have h := (processDestroy_amended true false true
    ⟨[("c1", { cexNotInstalled with installed := true })], [testNginxApp]⟩
    "c1").1 { cexNotInstalled with installed := true } (by decide)
  exact ⟨h.1, h.2.2⟩

/-- The monitor state touched by `TriggerInstall`: the container map and the
bounded operation queue (`opQueue`, a channel of capacity 100 whose content
is modelled as a list in enqueue order). -/
structure MonitorQState where
  containers : List (String × ContainerStateR)
  opQueue : List AppOperation
  deriving DecidableEq, Repr

/-- `Monitor.queueOperation`: non-blocking send on the bounded channel —
enqueue when there is room, otherwise drop the operation (and log). -/
def queueOperation (q : List AppOperation) (op : AppOperation) :
    List AppOperation :=
  if q.length < 100 then q ++ [op] else q

/-- The `dashboard_install` operation built by `TriggerInstall`. -/
def dashboardInstallOp (containerID : String) (st : ContainerStateR)
    (storedConfig : StoredConfigD) : AppOperation :=
  { type := "dashboard_install"
    appName := ""
    appDir := ""
    containerID := containerID
    containerName := st.containerName
    labels := st.labels
    storedConfig := some storedConfig }

/-- `Monitor.TriggerInstall`: look up the container; return unchanged unless
it is tracked, running and not yet installed; otherwise queue a
`dashboard_install` operation (dropped when the queue is full). -/
def TriggerInstall (m : MonitorQState) (containerID : String)
    (storedConfig : StoredConfigD) : MonitorQState :=
  match lookupContainer m.containers containerID with
  | none => m
  | some st =>
    if st.state != "running" then m
    else if st.installed then m
    else
      { m with opQueue :=
          queueOperation m.opQueue (dashboardInstallOp containerID st storedConfig) }

/-- C10: `TriggerInstall` enqueues a `dashboard_install` operation iff the
container is tracked, running and not installed; in every other case it
returns without touching any state; the container map is never mutated; and
even when the preconditions hold the operation is dropped rather than
blocking when the bounded queue is full. -/
theorem TriggerInstall_spec (m : MonitorQState) (cid : String)
    (cfg : StoredConfigD) :
    (TriggerInstall m cid cfg).containers = m.containers ∧
    (lookupContainer m.containers cid = none → TriggerInstall m cid cfg = m) ∧
    (∀ st, lookupContainer m.containers cid = some st →
      st.state ≠ "running" → TriggerInstall m cid cfg = m) ∧
    (∀ st, lookupContainer m.containers cid = some st →
      st.state = "running" → st.installed = true → TriggerInstall m cid cfg = m) ∧
    (∀ st, lookupContainer m.containers cid = some st →
      st.state = "running" → st.installed = false →
      (TriggerInstall m cid cfg).opQueue =
        (if m.opQueue.length < 100 then
          m.opQueue ++ [dashboardInstallOp cid st cfg]
        else m.opQueue)) := by
  refine ⟨?_, ?_, ?_, ?_, ?_⟩
  · unfold TriggerInstall
    cases h : lookupContainer m.containers cid with
    | none => rfl
    | some st =>
      by_cases hs : st.state != "running"
      · simp [hs]
      · by_cases hi : st.installed <;> simp [hs, hi]
  · intro h
    unfold TriggerInstall
    rw [h]
  · intro st h hs
    unfold TriggerInstall
    rw [h]
    have : (st.state != "running") = true := by
      simpa using hs
    simp [this]
  · intro st h hs hi
    unfold TriggerInstall
    rw [h]
    have : (st.state != "running") = false := by
      simpa using hs
    simp [this, hi]
  · intro st h hs hi
    unfold TriggerInstall
    rw [h]
    have hne : (st.state != "running") = false := by
      simpa using hs
    simp [hne, hi, queueOperation]

/-- A tracked, running, not-yet-installed container for the witness. -/
def witnessRunning : ContainerStateR :=
  { cexNotInstalled with state := "running" }

/-- An empty dashboard configuration for the witness. -/
def witnessStoredConfig : StoredConfigD :=
  { appName := "watchcow.web"
    displayName := "Web"
    description := ""
    version := "1.0.0"
    maintainer := "WatchCow"
    entries := []
    iconBase64 := "" }

/-- Witness for `TriggerInstall_spec`: with a running, uninstalled container
and an empty queue, a `dashboard_install` operation is enqueued. -/
theorem TriggerInstall_spec_witness :
    (TriggerInstall ⟨[("c1", witnessRunning)], []⟩ "c1"
        witnessStoredConfig).opQueue =
      [dashboardInstallOp "c1" witnessRunning witnessStoredConfig] := by
  have h := (TriggerInstall_spec ⟨[("c1", witnessRunning)], []⟩ "c1"
    witnessStoredConfig).2.2.2.2 witnessRunning (by decide) (by decide)
    (by decide)
  simpa using h

/-- The durable file system seen by `DashboardStorage` (the store file and
its sibling `.tmp`). A present file holds `some m` when it is an intact gob
serialization of the config map `m`, and `none` when it is corrupt or
truncated (a partial gob stream fails to decode). -/
structure FS (α : Type) where
  main : Option (Option α)
  tmp : Option (Option α)
  deriving DecidableEq, Repr

/-- `DashboardStorage.load` (with `NewDashboardStorage`'s error handling):
if the `.tmp` file exists and is loadable, recover its contents and rename it
over the store file; if it exists but is corrupt, remove it and fall back to
the store file; a missing store file means the fresh empty map, and a corrupt
store file logs `starting fresh` with the empty map. Returns the resulting
config map and file system. -/
def loadStep {α : Type} (empty : α) (fs : FS α) : α × FS α :=
  match fs.tmp with
  | some (some m) => (m, ⟨some (some m), none⟩)
  | some none =>
    (match fs.main with
     | some (some m) => m
     | _ => empty,
     ⟨fs.main, none⟩)
  | none =>
    (match fs.main with
     | some (some m) => m
     | _ => empty,
     fs)

/-- The durable states reachable if the process crashes anywhere inside
`DashboardStorage.save` for a new map `m`, starting from a store file holding
`oldMain`. Before the final rename (during `os.Create`, `Encode`, `Sync`,
`Close`, or after an error-path `os.Remove`) the store file is untouched and
the `.tmp` file is absent, partial/corrupt, or complete; the concluding
`os.Rename` is atomic, so afterwards the store file holds `m` and the `.tmp`
file is gone. -/
def SaveCrash {α : Type} (oldMain : Option (Option α)) (m : α)
    (fs : FS α) : Prop :=
  (fs.main = oldMain ∧
    (fs.tmp = none ∨ fs.tmp = some none ∨ fs.tmp = some (some m))) ∨
  (fs.main = some (some m) ∧ fs.tmp = none)

/-- `DashboardStorage.save` when no crash intervenes: the serialized map is
written and synced to the sibling `.tmp` file, which the concluding atomic
`os.Rename` moves over the store file. -/
def saveStep {α : Type} (fs : FS α) (m : α) : FS α :=
  let _ := fs
  ⟨some (some m), none⟩

/-- C4: a crash at any point during an atomic save leaves either the old or
the new contents loadable (a store file that held an intact `oldM`, or
nothing, still loads as `oldM` resp. the empty map — or as the new map `m`
once the `.tmp` file is complete); and on load, an existing loadable `.tmp`
file is recovered and renamed into place, while a corrupt one is discarded
with the store file untouched. -/
theorem storage_save_crash_safe {α : Type} (empty : α) (oldM : Option α)
    (m : α) (fs : FS α) :
    (SaveCrash (oldM.map some) m fs →
      (loadStep empty fs).1 = oldM.getD empty ∨ (loadStep empty fs).1 = m) ∧
    (∀ fs2 : FS α, ∀ r : α, fs2.tmp = some (some r) →
      loadStep empty fs2 = (r, ⟨some (some r), none⟩)) ∧
    (∀ fs2 : FS α, fs2.tmp = some none →
      (loadStep empty fs2).2 = ⟨fs2.main, none⟩) ∧
    (∀ fs2 : FS α, loadStep empty (saveStep fs2 m) = (m, saveStep fs2 m)) := by
  refine ⟨?_, ?_, ?_, fun _ => rfl⟩
  · intro hcrash
    rcases hcrash with ⟨hmain, htmp⟩ | ⟨hmain, htmp⟩
    · rcases htmp with htmp | htmp | htmp
      · left
        cases fs with
        | mk fmain ftmp =>
          simp only at hmain htmp
          subst hmain htmp
          cases oldM with
          | none => rfl
          | some o => rfl
      · left
        cases fs with
        | mk fmain ftmp =>
          simp only at hmain htmp
          subst hmain htmp
          cases oldM with
          | none => rfl
          | some o => rfl
      · right
        cases fs with
        | mk fmain ftmp =>
          simp only at hmain htmp
          subst hmain htmp
          rfl
    · right
      cases fs with
      | mk fmain ftmp =>
        simp only at hmain htmp
        subst hmain htmp
        rfl
  · intro fs2 r htmp
    cases fs2 with
    | mk fmain ftmp =>
      simp only at htmp
      subst htmp
      rfl
  · intro fs2 htmp
    cases fs2 with
    | mk fmain ftmp =>
      simp only at htmp
      subst htmp
      cases fmain with
      | none => rfl
      | some f =>
        cases f with
        | none => rfl
        | some v => rfl

/-- Witness for `storage_save_crash_safe`: after a crash between `Sync` and
`Rename` (store file still holds the map `1`, `.tmp` holds the complete new
map `2`), the load yields the old or the new map. -/
theorem storage_save_crash_safe_witness :
    (loadStep 0 (FS.mk (some (some 1)) (some (some 2)))).1 =
        (Option.some 1).getD 0 ∨
      (loadStep 0 (FS.mk (some (some 1)) (some (some 2)))).1 = 2 :=
  (storage_save_crash_safe 0 (some 1) 2
    (FS.mk (some (some 1)) (some (some 2)))).1
    (Or.inl ⟨rfl, Or.inr (Or.inr rfl)⟩)

/-- A Go slice header's reference to its backing array (the part that a
shallow struct copy `copy := *cfg` shares between the copy and the stored
value). -/
structure GoSliceRef where
  addr : Nat
  deriving DecidableEq, Repr

/-- `server.StoredConfig` as it sits in the store's memory: scalar fields by
value, the `Entries` slice as a backing-array reference into the heap
(`CreatedAt`/`UpdatedAt` as abstract instants). `server.StoredEntry` has the
same fields as `docker.StoredEntry`, so `StoredEntryD` stands for both. -/
structure StoredConfigMem where
  key : String
  appName : String
  displayName : String
  description : String
  version : String
  maintainer : String
  entries : GoSliceRef
  iconBase64 : String
  createdAt : Nat
  updatedAt : Nat
  deriving DecidableEq, Repr

/-- The store plus the heap of slice backing arrays. -/
structure StorageMem where
  configs : List (String × StoredConfigMem)
  heap : List (List StoredEntryD)
  deriving DecidableEq, Repr

/-- `DashboardStorage.Get`: look up the config and return the shallow copy
`copy := *cfg` — every field is copied by value, including the `Entries`
slice header, so the copy's `entries` reference is the stored one. -/
def storageGet (s : StorageMem) (key : String) : Option StoredConfigMem :=
  (s.configs.find? (fun kv => kv.1 == key)).map (fun kv => kv.2)

/-- Overwrite the title of the `i`-th element of an entry slice. -/
def setTitleAt : List StoredEntryD → Nat → String → List StoredEntryD
  | [], _, _ => []
  | e :: es, 0, t => { e with title := t } :: es
  | e :: es, Nat.succ n, t => e :: setTitleAt es n t

/-- A caller's write `got.Entries[i].Title = t` through a slice reference:
it mutates the backing array in the heap. -/
def writeEntryTitle (h : List (List StoredEntryD)) (r : GoSliceRef)
    (i : Nat) (t : String) : List (List StoredEntryD) :=
  h.set r.addr (setTitleAt (h.getD r.addr []) i t)

/-- The entry list a reader observes for a stored config: the slice resolved
through the heap. -/
def denoteEntries (s : StorageMem) (c : StoredConfigMem) :
    List StoredEntryD :=
  s.heap.getD c.entries.addr []

/-- The stored entry of the demonstration. -/
def c5Entry : StoredEntryD :=
  { name := ""
    title := "T"
    protocol := "http"
    port := "80"
    path := "/"
    uiType := "url"
    allUsers := true
    fileTypes := []
    noDisplay := false
    redirect := ""
    iconBase64 := "" }

/-- The stored config of the demonstration, whose entries live at heap
address 0. -/
def c5Config : StoredConfigMem :=
  { key := "nginx|80:8080"
    appName := "watchcow.web"
    displayName := "Web"
    description := ""
    version := "1.0.0"
    maintainer := "WatchCow"
    entries := GoSliceRef.mk 0
    iconBase64 := ""
    createdAt := 0
    updatedAt := 0 }

/-- The store holding `c5Config` under its key. -/
def c5Store : StorageMem :=
  { configs := [("nginx|80:8080", c5Config)], heap := [[c5Entry]] }

/-- The store after the caller mutates `got.Entries[0].Title` through the
value returned by `Get` (whose `entries` reference is heap address 0). -/
def c5MutatedStore : StorageMem :=
  { c5Store with
    heap := writeEntryTitle c5Store.heap (GoSliceRef.mk 0) 0 "EVIL" }

/-- C5 (code bug evidenced): `Get` returns a shallow copy whose `Entries`
slice shares the stored backing array; mutating an element of the returned
slice changes what a subsequent `Get` observes, so the store is not left
unchanged — the observed entry title flips from `"T"` to `"EVIL"`. -/
theorem storageGet_shared_entries_bug :
    (storageGet c5Store "nginx|80:8080").map StoredConfigMem.entries =
      some (GoSliceRef.mk 0) ∧
    (storageGet c5Store "nginx|80:8080").map (denoteEntries c5Store) =
      some [c5Entry] ∧
    (storageGet c5MutatedStore "nginx|80:8080").map
        (denoteEntries c5MutatedStore) =
      some [{ c5Entry with title := "EVIL" }] ∧
    some [{ c5Entry with title := "EVIL" }] ≠ some [c5Entry] :=
  ⟨by decide, by decide, by decide, by decide⟩


/-- Witness for `shouldInstall_iff`: a container labelled
`watchcow.enable=true` with no install mode is adopted. -/
theorem shouldInstall_iff_witness :
    shouldInstall [("watchcow.enable", "true")] = true :=
  (shouldInstall_iff [("watchcow.enable", "true")]).mpr
    ⟨by decide, Or.inl (by decide)⟩

/-- Witness for `defaultAppName_amended`: the underscore container name is
sanitized to dashes, and on a clean name the code's sanitization agrees with
the specification's run replacement. -/
theorem defaultAppName_amended_witness :
    extractAppName [] "My_App 2" = "watchcow." ++ sanitizeAppName "My_App 2" ∧
    specSanitizeRuns "nginx-1" = sanitizeAppName "nginx-1" :=
  ⟨(defaultAppName_amended "My_App 2").1,
   (defaultAppName_amended "nginx-1").2.2 (by decide)⟩
